import Mathlib

/-!
Shallow embedding of the Scala dependency-inference core of
`src/python/pants/backend/scala/dependency_inference/scala_parser.py`:
the per-file analysis record (`ScalaImport`, `ScalaSourceDependencyAnalysis`),
the candidate resolver `fully_qualified_consumed_symbols`, JSON
(de)serialization, and the two orchestration rules
(`analyze_scala_source_dependencies`, `resolve_fallible_result_to_analysis`).

Modelling conventions:
- `FrozenOrderedSet` (insertion-ordered, first occurrence kept) is modelled as a
  `List` built by `orderedDedup`; `FrozenDict` as an association list in
  insertion order.
- Python `str.startswith` and `"." in s` are modelled on the character list of
  the string (`strStartsWith`, `strContains`), which is exactly their
  semantics and keeps everything kernel-computable.
- The lazy generator is modelled as the finite list of its yields, in yield
  order.  The Python set comprehension `parent_scope_wildcards` is modelled as
  an insertion-order deduplication of the comprehension's iteration order
  (membership-equivalent to the Python set; any fixed deterministic order is a
  sound abstraction of CPython's in-process-deterministic set order).
- The engine types (`FallibleProcessResult`, `ProcessExecutionFailure`) are
  modelled with exactly the fields this file reads or constructs; JSON byte
  decoding of the tool output is external, so the output digest is carried
  already decoded as an `AnalysisJson`.
-/

namespace ScalaParserModel

/-- Character-list model of Python `scope.startswith(s)`: `s` is a raw textual
leading substring of `scope`. -/
def strStartsWith (s pre : String) : Bool :=
  pre.data.isPrefixOf s.data

/-- Character-list model of Python `c in s` for a single character `c`. -/
def strContains (s : String) (c : Char) : Bool :=
  s.data.contains c

/-- Worker for `orderedDedup`: drop every element already seen, keep the rest in
order while recording it as seen. -/
def dedupGo {α : Type} [DecidableEq α] (seen : List α) : List α → List α
  | [] => []
  | x :: xs => if x ∈ seen then dedupGo seen xs else x :: dedupGo (x :: seen) xs

/-- Insertion-order deduplication: keep the first occurrence of each element.
This is the construction performed by `FrozenOrderedSet` and by a Python set
comprehension read in insertion order. -/
def orderedDedup {α : Type} [DecidableEq α] (l : List α) : List α :=
  dedupGo [] l

/-- `ScalaImport` (scala_parser.py): one declared import, name plus wildcard flag. -/
structure ScalaImport where
  name : String
  is_wildcard : Bool
deriving DecidableEq, Repr

/-- `ScalaSourceDependencyAnalysis` (scala_parser.py): the per-file analysis record. -/
structure ScalaSourceDependencyAnalysis where
  provided_symbols : List String
  provided_symbols_encoded : List String
  imports_by_scope : List (String × List ScalaImport)
  consumed_symbols_by_scope : List (String × List String)
  scopes : List String
deriving DecidableEq, Repr

/-- First loop of `fully_qualified_consumed_symbols`: for every scope retain the
wildcard imports; scopes whose wildcard tuple is empty are omitted. -/
def wildcardImportsByScope (a : ScalaSourceDependencyAnalysis) :
    List (String × List ScalaImport) :=
  (a.imports_by_scope.map (fun p => (p.1, p.2.filter (fun imp => imp.is_wildcard)))).filter
    (fun p => !p.2.isEmpty)

/-- The set comprehension `parent_scope_wildcards`: wildcard imports of every
declaring scope `s` such that the consuming scope starts with `s` textually,
deduplicated in insertion order. -/
def parentScopeWildcards (wbys : List (String × List ScalaImport)) (scope : String) :
    List ScalaImport :=
  orderedDedup ((wbys.filter (fun p => strStartsWith scope p.1)).flatMap (fun p => p.2))

/-- The yields of the innermost body of `fully_qualified_consumed_symbols` for one
consumed `symbol`: every known scope as qualifier, the bare symbol when `scopes`
is empty or the symbol contains a dot, then every ancestor wildcard as qualifier. -/
def candidatesForSymbol (scopes : List String) (psw : List ScalaImport)
    (symbol : String) : List String :=
  (scopes.map (fun sc => sc ++ "." ++ symbol))
    ++ (if scopes.isEmpty || strContains symbol '.' then [symbol] else [])
    ++ (psw.map (fun w => w.name ++ "." ++ symbol))

/-- `ScalaSourceDependencyAnalysis.fully_qualified_consumed_symbols`: the full
yield sequence of the generator, in yield order. -/
def ScalaSourceDependencyAnalysis.fully_qualified_consumed_symbols
    (a : ScalaSourceDependencyAnalysis) : List String :=
  a.consumed_symbols_by_scope.flatMap (fun p =>
    p.2.flatMap
      (candidatesForSymbol a.scopes (parentScopeWildcards (wildcardImportsByScope a) p.1)))

/-- One entry of `importsByScope` in the transport record: `{name, isWildcard}`. -/
structure ScalaImportJson where
  name : String
  isWildcard : Bool
deriving DecidableEq, Repr

/-- The transport record consumed by `from_json_dict`, with all required keys
present (a record missing a key fails before reaching the constructor). -/
structure AnalysisJson where
  providedSymbols : List String
  providedSymbolsEncoded : List String
  importsByScope : List (String × List ScalaImportJson)
  consumedSymbolsByScope : List (String × List String)
  scopes : List String
deriving DecidableEq, Repr

/-- `ScalaImport.from_json_dict`. -/
def ScalaImport.from_json_dict (j : ScalaImportJson) : ScalaImport :=
  ⟨j.name, j.isWildcard⟩

/-- `ScalaSourceDependencyAnalysis.from_json_dict`: ordered-set construction for
the symbol collections, per-key tuples for imports. -/
def ScalaSourceDependencyAnalysis.from_json_dict (d : AnalysisJson) :
    ScalaSourceDependencyAnalysis where
  provided_symbols := orderedDedup d.providedSymbols
  provided_symbols_encoded := orderedDedup d.providedSymbolsEncoded
  imports_by_scope := d.importsByScope.map (fun p => (p.1, p.2.map ScalaImport.from_json_dict))
  consumed_symbols_by_scope :=
    d.consumedSymbolsByScope.map (fun p => (p.1, orderedDedup p.2))
  scopes := orderedDedup d.scopes

/-- Debug rendering of one import: `{name, is_wildcard}`. -/
structure ScalaImportDebug where
  name : String
  is_wildcard : Bool
deriving DecidableEq, Repr

/-- `ScalaImport.to_debug_json_dict`. -/
def ScalaImport.to_debug_json_dict (i : ScalaImport) : ScalaImportDebug :=
  ⟨i.name, i.is_wildcard⟩

/-- Lexicographic comparison of character lists by code point, the order Python
uses to compare strings. -/
def charListLe : List Char → List Char → Bool
  | [], _ => true
  | _ :: _, [] => false
  | a :: as, b :: bs =>
    if a.toNat < b.toNat then true
    else if b.toNat < a.toNat then false
    else charListLe as bs

/-- Python string comparison `a <= b`: code-point lexicographic order. -/
def strLe (a b : String) : Bool :=
  charListLe a.data b.data

/-- Python `sorted` on a list of strings: a stable sort by `strLe`. -/
def sortStrings (l : List String) : List String :=
  List.insertionSort (fun a b => strLe a b = true) l

/-- The debug/inspection record produced by `to_debug_json_dict`. -/
structure AnalysisDebug where
  provided_symbols : List String
  provided_symbols_encoded : List String
  imports_by_scope : List (String × List ScalaImportDebug)
  consumed_symbols_by_scope : List (String × List String)
  scopes : List String
deriving DecidableEq, Repr

/-- `ScalaSourceDependencyAnalysis.to_debug_json_dict`: consumed-symbol sets are
rendered sorted, everything else in stored order. -/
def ScalaSourceDependencyAnalysis.to_debug_json_dict
    (a : ScalaSourceDependencyAnalysis) : AnalysisDebug where
  provided_symbols := a.provided_symbols
  provided_symbols_encoded := a.provided_symbols_encoded
  imports_by_scope := a.imports_by_scope.map (fun p => (p.1, p.2.map ScalaImport.to_debug_json_dict))
  consumed_symbols_by_scope :=
    a.consumed_symbols_by_scope.map (fun p => (p.1, sortStrings p.2))
  scopes := a.scopes

/-- The external parser invocation assembled by `analyze_scala_source_dependencies`
once its precondition holds (the fields of the `Process` that depend on the input). -/
structure ParserInvocation where
  source_path : String
  analysis_output_path : String
  description : String
deriving DecidableEq, Repr

/-- Precondition-checking shell of the rule `analyze_scala_source_dependencies`:
`files` is `source_files.files`, `snapshot_files` is `source_files.snapshot.files`
(the length reported in the first error message).  An error is returned before
any `ParserInvocation` is assembled. -/
def analyze_scala_source_dependencies (files snapshot_files : List String) :
    Except String ParserInvocation :=
  if files.length > 1 then
    Except.error
      ("analyze_scala_source_dependencies expects sources with exactly 1 source file, but found "
        ++ toString snapshot_files.length ++ ".")
  else if files.length = 0 then
    Except.error
      "analyze_scala_source_dependencies expects sources with exactly 1 source file, but found none."
  else
    Except.ok
      { source_path := "__source_to_analyze/" ++ files.headD ""
        analysis_output_path := "__source_analysis.json"
        description := "Analyzing " ++ files.headD "" }

/-- The fields of the engine's fallible process result that
`resolve_fallible_result_to_analysis` reads; `output_analysis` is the decoded
content of the output digest. -/
structure FallibleProcessResult where
  exit_code : Int
  stdout : String
  stderr : String
  output_analysis : AnalysisJson
deriving DecidableEq, Repr

/-- The argument tuple passed to the engine's `ProcessExecutionFailure`
constructor (the `local_cleanup` display option is not modelled). -/
structure ProcessExecutionFailure where
  exit_code : Int
  stdout : String
  stderr : String
  description : String
deriving DecidableEq, Repr

/-- `resolve_fallible_result_to_analysis`: deserialize on exit code 0, otherwise
raise a `ProcessExecutionFailure` carrying the exit code and both streams
verbatim and the fixed description string. -/
def resolve_fallible_result_to_analysis (fr : FallibleProcessResult) :
    Except ProcessExecutionFailure ScalaSourceDependencyAnalysis :=
  if fr.exit_code = 0 then
    Except.ok (ScalaSourceDependencyAnalysis.from_json_dict fr.output_analysis)
  else
    Except.error ⟨fr.exit_code, fr.stdout, fr.stderr, "Scala source dependency analysis failed."⟩

/-- Substring occurrence test, used to state that an error description does not
mention a file name. -/
def occursIn (needle hay : String) : Bool :=
  hay.data.tails.any (fun t => needle.data.isPrefixOf t)

/-- Example from the spec: a wildcard import declared in scope `com.foo` and a
symbol consumed in scope `com.foobar`, which textually starts with `com.foo`. -/
def exPrefixCaveat : ScalaSourceDependencyAnalysis where
  provided_symbols := []
  provided_symbols_encoded := []
  imports_by_scope := [("com.foo", [⟨"com.baz._", true⟩])]
  consumed_symbols_by_scope := [("com.foobar", ["Qux"])]
  scopes := ["com.foo", "com.foobar"]

/-- Example from the spec: one scope `com.foo.Bar` with a wildcard import of
`com.baz._` and a consumed symbol `Qux`. -/
def exQux : ScalaSourceDependencyAnalysis where
  provided_symbols := []
  provided_symbols_encoded := []
  imports_by_scope := [("com.foo.Bar", [⟨"com.baz._", true⟩])]
  consumed_symbols_by_scope := [("com.foo.Bar", ["Qux"])]
  scopes := ["com.foo.Bar"]

/-- Degenerate analysis: everything empty. -/
def exEmpty : ScalaSourceDependencyAnalysis where
  provided_symbols := []
  provided_symbols_encoded := []
  imports_by_scope := []
  consumed_symbols_by_scope := []
  scopes := []

/-- Analysis with empty `scopes`, a consumed bare symbol and a consumed dotted
symbol, and no wildcard imports. -/
def exNoScopes : ScalaSourceDependencyAnalysis where
  provided_symbols := []
  provided_symbols_encoded := []
  imports_by_scope := [("com.foo", [⟨"com.single", false⟩])]
  consumed_symbols_by_scope := [("com.foo", ["Qux", "a.b.Qux"])]
  scopes := []

/-- Same content as `exQux` except for `provided_symbols`, to exhibit that the
resolver reads none of the provided-symbol fields. -/
def exQuxProvided : ScalaSourceDependencyAnalysis where
  provided_symbols := ["com.foo.Bar.Qux"]
  provided_symbols_encoded := ["com.foo.Bar.Qux$"]
  imports_by_scope := [("com.foo.Bar", [⟨"com.baz._", true⟩])]
  consumed_symbols_by_scope := [("com.foo.Bar", ["Qux"])]
  scopes := ["com.foo.Bar"]

/-- An empty transport record. -/
def exEmptyJson : AnalysisJson where
  providedSymbols := []
  providedSymbolsEncoded := []
  importsByScope := []
  consumedSymbolsByScope := []
  scopes := []

/-- A failed parser run on the source file `Foo.scala`: exit code 1 with short
diagnostics on both streams, none of which mentions the file name. -/
def exFailedRun : FallibleProcessResult where
  exit_code := 1
  stdout := "out"
  stderr := "err"
  output_analysis := exEmptyJson

/-- `out` is `input` with duplicates removed, keeping for each element its first
occurrence, in order of first occurrence (`indexOf` is the index of the first
occurrence in `input`). -/
def IsOrderedDedupOf (out input : List String) : Prop :=
  out.Nodup ∧ (∀ s, s ∈ out ↔ s ∈ input) ∧
    out.Pairwise (fun x y => input.indexOf x < input.indexOf y)

/-- `out` carries exactly the elements of `input`, once each, in their original
relative order (a duplicate-free sublist with the same membership). -/
def PreservesInInsertionOrder (out input : List String) : Prop :=
  out.Sublist input ∧ out.Nodup ∧ ∀ s, s ∈ out ↔ s ∈ input

/-- `out` renders the set of elements of `input` as a sorted duplicate-free
sequence (sorted by Python's string order `strLe`). -/
def IsSortedSetOf (out input : List String) : Prop :=
  out.Nodup ∧ (∀ s, s ∈ out ↔ s ∈ input) ∧
    out.Pairwise (fun x y => strLe x y = true)

end ScalaParserModel

namespace ScalaParserModel

theorem mem_dedupGo {α : Type} [DecidableEq α] {y : α} {seen l : List α} :
    y ∈ dedupGo seen l ↔ y ∈ l ∧ y ∉ seen := by
  induction l generalizing seen with
  | nil => simp [dedupGo]
  | cons x xs ih =>
    by_cases hx : x ∈ seen
    · simp only [dedupGo, if_pos hx, ih, List.mem_cons]
      by_cases hyx : y = x
      · subst hyx; tauto
      · tauto
    · simp only [dedupGo, if_neg hx, List.mem_cons, ih]
      by_cases hyx : y = x
      · subst hyx; tauto
      · tauto

theorem dedupGo_sublist {α : Type} [DecidableEq α] (seen l : List α) :
    (dedupGo seen l).Sublist l := by
  induction l generalizing seen with
  | nil => simp [dedupGo]
  | cons x xs ih =>
    by_cases hx : x ∈ seen
    · simp only [dedupGo, if_pos hx]
      exact (ih seen).cons x
    · simp only [dedupGo, if_neg hx]
      exact (ih (x :: seen)).cons₂ x

theorem nodup_dedupGo {α : Type} [DecidableEq α] (seen l : List α) :
    (dedupGo seen l).Nodup := by
  induction l generalizing seen with
  | nil => simp [dedupGo]
  | cons x xs ih =>
    by_cases hx : x ∈ seen
    · simp only [dedupGo, if_pos hx]
      exact ih seen
    · simp only [dedupGo, if_neg hx]
      refine List.nodup_cons.mpr ⟨?_, ih (x :: seen)⟩
      intro hmem
      exact (mem_dedupGo.mp hmem).2 (List.mem_cons_self x seen)

theorem pairwise_idxOf_dedupGo {α : Type} [DecidableEq α] (seen l : List α) :
    (dedupGo seen l).Pairwise (fun a b => l.indexOf a < l.indexOf b) := by
  induction l generalizing seen with
  | nil => simp [dedupGo]
  | cons x xs ih =>
    by_cases hx : x ∈ seen
    · simp only [dedupGo, if_pos hx]
      refine (ih seen).imp_of_mem ?_
      intro a b ha hb hab
      have ha2 := mem_dedupGo.mp ha
      have hb2 := mem_dedupGo.mp hb
      have hax : a ≠ x := fun h => ha2.2 (h ▸ hx)
      have hbx : b ≠ x := fun h => hb2.2 (h ▸ hx)
      rw [List.indexOf_cons_ne _ (Ne.symm hax), List.indexOf_cons_ne _ (Ne.symm hbx)]
      exact Nat.succ_lt_succ hab
    · simp only [dedupGo, if_neg hx]
      rw [List.pairwise_cons]
      constructor
      · intro b hb
        have hb2 := mem_dedupGo.mp hb
        have hbx : b ≠ x := fun h => hb2.2 (h ▸ List.mem_cons_self x seen)
        rw [List.indexOf_cons_self, List.indexOf_cons_ne _ (Ne.symm hbx)]
        exact Nat.succ_pos _
      · refine (ih (x :: seen)).imp_of_mem ?_
        intro a b ha hb hab
        have ha2 := mem_dedupGo.mp ha
        have hb2 := mem_dedupGo.mp hb
        have hax : a ≠ x := fun h => ha2.2 (h ▸ List.mem_cons_self x seen)
        have hbx : b ≠ x := fun h => hb2.2 (h ▸ List.mem_cons_self x seen)
        rw [List.indexOf_cons_ne _ (Ne.symm hax), List.indexOf_cons_ne _ (Ne.symm hbx)]
        exact Nat.succ_lt_succ hab

theorem mem_orderedDedup {α : Type} [DecidableEq α] {y : α} {l : List α} :
    y ∈ orderedDedup l ↔ y ∈ l := by
  simp [orderedDedup, mem_dedupGo]

theorem orderedDedup_sublist {α : Type} [DecidableEq α] (l : List α) :
    (orderedDedup l).Sublist l :=
  dedupGo_sublist [] l

theorem nodup_orderedDedup {α : Type} [DecidableEq α] (l : List α) :
    (orderedDedup l).Nodup :=
  nodup_dedupGo [] l

theorem pairwise_idxOf_orderedDedup {α : Type} [DecidableEq α] (l : List α) :
    (orderedDedup l).Pairwise (fun a b => l.indexOf a < l.indexOf b) :=
  pairwise_idxOf_dedupGo [] l

theorem charListLe_trans :
    ∀ (a b c : List Char), charListLe a b = true → charListLe b c = true →
      charListLe a c = true := by
  intro a
  induction a with
  | nil => intro b c _ _; rfl
  | cons x as ih =>
    intro b c hab hbc
    cases b with
    | nil => simp [charListLe] at hab
    | cons y bs =>
      cases c with
      | nil => simp [charListLe] at hbc
      | cons z cs =>
        simp only [charListLe] at hab hbc ⊢
        split_ifs at hab hbc ⊢ with h1 h2 h3 h4 h5 h6 <;>
          first
          | rfl
          | omega
          | (exact ih bs cs hab hbc)

theorem charListLe_total :
    ∀ (a b : List Char), charListLe a b = true ∨ charListLe b a = true := by
  intro a
  induction a with
  | nil => intro b; left; rfl
  | cons x as ih =>
    intro b
    cases b with
    | nil => right; rfl
    | cons y bs =>
      rcases Nat.lt_trichotomy x.toNat y.toNat with h | h | h
      · left; simp [charListLe, h]
      · have h2 : ¬ x.toNat < y.toNat := by omega
        have h3 : ¬ y.toNat < x.toNat := by omega
        simp only [charListLe, if_neg h2, if_neg h3]
        exact ih bs
      · right; simp [charListLe, h]

theorem strLe_trans (a b c : String) (hab : strLe a b = true) (hbc : strLe b c = true) :
    strLe a c = true :=
  charListLe_trans a.data b.data c.data hab hbc

theorem strLe_total (a b : String) : strLe a b = true ∨ strLe b a = true :=
  charListLe_total a.data b.data

theorem isOrderedDedupOf_orderedDedup (l : List String) :
    IsOrderedDedupOf (orderedDedup l) l :=
  ⟨nodup_orderedDedup l, fun _ => mem_orderedDedup, pairwise_idxOf_orderedDedup l⟩

theorem preservesInInsertionOrder_orderedDedup (l : List String) :
    PreservesInInsertionOrder (orderedDedup l) l :=
  ⟨orderedDedup_sublist l, nodup_orderedDedup l, fun _ => mem_orderedDedup⟩

theorem isSortedSetOf_sortStrings_orderedDedup (v : List String) :
    IsSortedSetOf (sortStrings (orderedDedup v)) v := by
  haveI : IsTotal String (fun a b => strLe a b = true) := ⟨strLe_total⟩
  haveI : IsTrans String (fun a b => strLe a b = true) := ⟨strLe_trans⟩
  have hperm : (sortStrings (orderedDedup v)).Perm (orderedDedup v) :=
    List.perm_insertionSort _ _
  refine ⟨hperm.nodup_iff.mpr (nodup_orderedDedup v), ?_, ?_⟩
  · intro s
    rw [hperm.mem_iff, mem_orderedDedup]
  · exact List.sorted_insertionSort _ _

theorem mem_parentScopeWildcards (a : ScalaSourceDependencyAnalysis) (S : String)
    (w : ScalaImport) :
    w ∈ parentScopeWildcards (wildcardImportsByScope a) S ↔
      ∃ A imps, (A, imps) ∈ a.imports_by_scope ∧ w ∈ imps ∧ w.is_wildcard = true ∧
        strStartsWith S A = true := by
  constructor
  · intro hw0
    have h1 : w ∈ ((wildcardImportsByScope a).filter
        (fun p => strStartsWith S p.1)).flatMap (fun p => p.2) :=
      mem_orderedDedup.mp hw0
    obtain ⟨p, hp, hwp⟩ := List.mem_flatMap.mp h1
    obtain ⟨hpw, hpre⟩ := List.mem_filter.mp hp
    obtain ⟨hpm, _⟩ := List.mem_filter.mp hpw
    obtain ⟨q, hq, hfq⟩ := List.mem_map.mp hpm
    subst hfq
    obtain ⟨hwq, hwc⟩ := List.mem_filter.mp hwp
    exact ⟨q.1, q.2, hq, hwq, hwc, hpre⟩
  · rintro ⟨A, imps, hA, hw1, hwc, hpre⟩
    have hwf : w ∈ imps.filter (fun imp => imp.is_wildcard) :=
      List.mem_filter.mpr ⟨hw1, hwc⟩
    apply mem_orderedDedup.mpr
    apply List.mem_flatMap.mpr
    refine ⟨(A, imps.filter (fun imp => imp.is_wildcard)), ?_, hwf⟩
    apply List.mem_filter.mpr
    refine ⟨?_, hpre⟩
    apply List.mem_filter.mpr
    refine ⟨List.mem_map.mpr ⟨(A, imps), hA, rfl⟩, ?_⟩
    rcases hmem : imps.filter (fun imp => imp.is_wildcard) with _ | ⟨u, us⟩
    · rw [hmem] at hwf
      simp at hwf
    · rw [hmem]
      rfl

theorem mem_fqcs_of_candidate (a : ScalaSourceDependencyAnalysis) {S : String}
    {syms : List String} {sym c : String}
    (hS : (S, syms) ∈ a.consumed_symbols_by_scope) (hsym : sym ∈ syms)
    (hc : c ∈ candidatesForSymbol a.scopes
      (parentScopeWildcards (wildcardImportsByScope a) S) sym) :
    c ∈ a.fully_qualified_consumed_symbols := by
  apply List.mem_flatMap.mpr
  refine ⟨(S, syms), hS, ?_⟩
  apply List.mem_flatMap.mpr
  exact ⟨sym, hsym, hc⟩

end ScalaParserModel

namespace ScalaParserModel

/-- Claim C1: for every analysis, every scope `S` having consumed symbols and
every symbol `sym` consumed there, if some scope `A` has a wildcard import `w`
in `imports_by_scope` and `S` starts with `A` as a string prefix, then the
candidate sequence of `fully_qualified_consumed_symbols` contains
`w.name ++ "." ++ sym`. -/
theorem C1_wildcard_over_approximation (a : ScalaSourceDependencyAnalysis)
    (S : String) (syms : List String) (sym A : String) (imps : List ScalaImport)
    (w : ScalaImport)
    (hS : (S, syms) ∈ a.consumed_symbols_by_scope) (hsym : sym ∈ syms)
    (hA : (A, imps) ∈ a.imports_by_scope) (hw : w ∈ imps)
    (hwc : w.is_wildcard = true) (hpre : strStartsWith S A = true) :
    (w.name ++ "." ++ sym) ∈ a.fully_qualified_consumed_symbols := by
  apply mem_fqcs_of_candidate a hS hsym
  refine List.mem_append.mpr (Or.inr ?_)
  apply List.mem_map.mpr
  exact ⟨w, (mem_parentScopeWildcards a S w).mpr ⟨A, imps, hA, hw, hwc, hpre⟩, rfl⟩

/-- Witness for C1 at the spec's `com.foo.Bar`/`com.baz._`/`Qux` example. -/
theorem C1_witness :
    (("com.foo.Bar", ["Qux"]) ∈ exQux.consumed_symbols_by_scope) ∧
    ("Qux" ∈ ["Qux"]) ∧
    (("com.foo.Bar", [(⟨"com.baz._", true⟩ : ScalaImport)]) ∈ exQux.imports_by_scope) ∧
    ((⟨"com.baz._", true⟩ : ScalaImport) ∈ [(⟨"com.baz._", true⟩ : ScalaImport)]) ∧
    (ScalaImport.is_wildcard ⟨"com.baz._", true⟩ = true) ∧
    (strStartsWith "com.foo.Bar" "com.foo.Bar" = true) ∧
    "com.baz._.Qux" ∈ exQux.fully_qualified_consumed_symbols :=
  ⟨by decide, by decide, by decide, by decide, by decide, by decide,
    C1_wildcard_over_approximation exQux "com.foo.Bar" ["Qux"] "Qux" "com.foo.Bar"
      [⟨"com.baz._", true⟩] ⟨"com.baz._", true⟩ (by decide) (by decide) (by decide)
      (by decide) (by decide) (by decide)⟩

/-- Claim C2: ancestor matching is a raw textual string-prefix test: a wildcard
declaration is among the candidate qualifiers for consuming scope `S` exactly
when it is declared (with `is_wildcard = true`) in a scope `A` that is a raw string
prefix of `S`; in particular, with the wildcard declared in `com.foo` and the
symbol `Qux` consumed in `com.foobar`, the candidate `com.baz._.Qux` is
emitted (`com.foobar` treated as a descendant of `com.foo`). -/
theorem C2_textual_string_prefix_matching :
    (∀ (a : ScalaSourceDependencyAnalysis) (S : String) (w : ScalaImport),
      w ∈ parentScopeWildcards (wildcardImportsByScope a) S ↔
        ∃ A imps, (A, imps) ∈ a.imports_by_scope ∧ w ∈ imps ∧
          w.is_wildcard = true ∧ strStartsWith S A = true) ∧
    "com.baz._.Qux" ∈ exPrefixCaveat.fully_qualified_consumed_symbols :=
  ⟨mem_parentScopeWildcards, by decide⟩

/-- Claim C3 (amended): on non-zero exit the resolution step raises a
structured execution error embedding the exit code and both captured streams
verbatim; its description is the fixed string
"Scala source dependency analysis failed.". -/
theorem C3_failure_raises_structured_error (fr : FallibleProcessResult)
    (h : fr.exit_code ≠ 0) :
    resolve_fallible_result_to_analysis fr =
      Except.error ⟨fr.exit_code, fr.stdout, fr.stderr,
        "Scala source dependency analysis failed."⟩ := by
  unfold resolve_fallible_result_to_analysis
  rw [if_neg h]

/-- Witness for C3 (amended) at the concrete failed run. -/
theorem C3_witness :
    (exFailedRun.exit_code ≠ 0) ∧
    resolve_fallible_result_to_analysis exFailedRun =
      Except.error ⟨exFailedRun.exit_code, exFailedRun.stdout, exFailedRun.stderr,
        "Scala source dependency analysis failed."⟩ :=
  ⟨by decide, C3_failure_raises_structured_error exFailedRun (by decide)⟩

/-- Counterexample to C3 as stated: for a failed run on source file
`Foo.scala`, the raised error is fully determined by the process result; its
description is the fixed string, and the file name occurs neither in the
description nor in either captured stream, so the error's human-readable
description does not identify (name) the failing source file. -/
theorem C3_counterexample :
    resolve_fallible_result_to_analysis exFailedRun =
      Except.error ⟨1, "out", "err", "Scala source dependency analysis failed."⟩ ∧
    occursIn "Foo.scala" "Scala source dependency analysis failed." = false ∧
    occursIn "Foo.scala" "out" = false ∧
    occursIn "Foo.scala" "err" = false :=
  ⟨rfl, by decide, by decide, by decide⟩

/-- Claim C4: every scope `T` of the analysis qualifies every consumed symbol:
`T ++ "." ++ sym` is among the candidates; at the spec's example analysis both
`com.foo.Bar.Qux` and `com.baz._.Qux` are produced. -/
theorem C4_all_scopes_qualify :
    (∀ (a : ScalaSourceDependencyAnalysis) (S : String) (syms : List String)
      (sym T : String),
      (S, syms) ∈ a.consumed_symbols_by_scope → sym ∈ syms → T ∈ a.scopes →
        (T ++ "." ++ sym) ∈ a.fully_qualified_consumed_symbols) ∧
    "com.foo.Bar.Qux" ∈ exQux.fully_qualified_consumed_symbols ∧
    "com.baz._.Qux" ∈ exQux.fully_qualified_consumed_symbols := by
  refine ⟨?_, by decide, by decide⟩
  intro a S syms sym T hS hsym hT
  apply mem_fqcs_of_candidate a hS hsym
  refine List.mem_append.mpr (Or.inl (List.mem_append.mpr (Or.inl ?_)))
  exact List.mem_map.mpr ⟨T, hT, rfl⟩

/-- Witness for C4 at the spec's example. -/
theorem C4_witness :
    (("com.foo.Bar", ["Qux"]) ∈ exQux.consumed_symbols_by_scope) ∧
    ("Qux" ∈ ["Qux"]) ∧ ("com.foo.Bar" ∈ exQux.scopes) ∧
    "com.foo.Bar.Qux" ∈ exQux.fully_qualified_consumed_symbols :=
  ⟨by decide, by decide, by decide,
    C4_all_scopes_qualify.1 exQux "com.foo.Bar" ["Qux"] "Qux" "com.foo.Bar"
      (by decide) (by decide) (by decide)⟩

/-- Claim C5: a consumed symbol appears bare (unchanged) in the candidate
sequence whenever the analysis's `scopes` set is empty or the symbol contains
a `.` character. -/
theorem C5_bare_symbol_fallback (a : ScalaSourceDependencyAnalysis)
    (S : String) (syms : List String) (sym : String)
    (hS : (S, syms) ∈ a.consumed_symbols_by_scope) (hsym : sym ∈ syms)
    (hcond : a.scopes = [] ∨ strContains sym '.' = true) :
    sym ∈ a.fully_qualified_consumed_symbols := by
  apply mem_fqcs_of_candidate a hS hsym
  refine List.mem_append.mpr (Or.inl (List.mem_append.mpr (Or.inr ?_)))
  have hc : (a.scopes.isEmpty || strContains sym '.') = true := by
    rcases hcond with h | h
    · simp [h]
    · simp [h]
  simp only [hc, if_true]
  exact List.mem_singleton.mpr rfl

/-- Witness for C5: with empty scopes the bare symbol `Qux` is produced. -/
theorem C5_witness :
    (("com.foo", ["Qux", "a.b.Qux"]) ∈ exNoScopes.consumed_symbols_by_scope) ∧
    ("Qux" ∈ ["Qux", "a.b.Qux"]) ∧
    (exNoScopes.scopes = [] ∨ strContains "Qux" '.' = true) ∧
    "Qux" ∈ exNoScopes.fully_qualified_consumed_symbols :=
  ⟨by decide, by decide, Or.inl rfl,
    C5_bare_symbol_fallback exNoScopes "com.foo" ["Qux", "a.b.Qux"] "Qux"
      (by decide) (by decide) (Or.inl rfl)⟩

/-- Claim C6: round-trip: deserializing a transport record and serializing it
back to debug form preserves all symbol, import and scope content: the three
symbol collections keep exactly the input's elements once each in original
relative order, the imports mapping is reproduced verbatim (keys and per-key
sequences of imports in original order, `isWildcard` renamed `is_wildcard`), and
each per-scope consumed-symbol set is rendered as a sorted duplicate-free
sequence of exactly the input's elements, under the original keys in original
key order. -/
theorem C6_round_trip (d : AnalysisJson) :
    PreservesInInsertionOrder
      (ScalaSourceDependencyAnalysis.from_json_dict d).to_debug_json_dict.provided_symbols
      d.providedSymbols ∧
    PreservesInInsertionOrder
      (ScalaSourceDependencyAnalysis.from_json_dict d).to_debug_json_dict.provided_symbols_encoded
      d.providedSymbolsEncoded ∧
    PreservesInInsertionOrder
      (ScalaSourceDependencyAnalysis.from_json_dict d).to_debug_json_dict.scopes
      d.scopes ∧
    (ScalaSourceDependencyAnalysis.from_json_dict d).to_debug_json_dict.imports_by_scope =
      d.importsByScope.map (fun p => (p.1, p.2.map (fun j => ⟨j.name, j.isWildcard⟩))) ∧
    List.Forall₂ (fun pIn pOut => pOut.1 = pIn.1 ∧ IsSortedSetOf pOut.2 pIn.2)
      d.consumedSymbolsByScope
      (ScalaSourceDependencyAnalysis.from_json_dict d).to_debug_json_dict.consumed_symbols_by_scope := by
  refine ⟨preservesInInsertionOrder_orderedDedup _, preservesInInsertionOrder_orderedDedup _,
    preservesInInsertionOrder_orderedDedup _, ?_, ?_⟩
  · show (d.importsByScope.map (fun p => (p.1, p.2.map ScalaImport.from_json_dict))).map
        (fun p => (p.1, p.2.map ScalaImport.to_debug_json_dict)) = _
    simp only [List.map_map, Function.comp_def]
    rfl
  · show List.Forall₂ _ d.consumedSymbolsByScope
      ((d.consumedSymbolsByScope.map (fun p => (p.1, orderedDedup p.2))).map
        (fun p => (p.1, sortStrings p.2)))
    rw [List.map_map, List.forall₂_map_right_iff, List.forall₂_same]
    intro p _
    exact ⟨rfl, isSortedSetOf_sortStrings_orderedDedup p.2⟩

/-- Claim C7: the candidate sequence is a deterministic pure function of the
analysis record: it depends on nothing but the `imports_by_scope`,
`consumed_symbols_by_scope` and `scopes` fields the resolver reads, so two
resolutions of the same analysis (even through two structurally equal copies)
yield element-for-element identical sequences in the same order; in this
embedding the generator is the list of its yields, so re-iterating from the
same record is literally reading the same list, with no shared cursor. -/
theorem C7_deterministic_resolution (a b : ScalaSourceDependencyAnalysis)
    (h1 : a.imports_by_scope = b.imports_by_scope)
    (h2 : a.consumed_symbols_by_scope = b.consumed_symbols_by_scope)
    (h3 : a.scopes = b.scopes) :
    a.fully_qualified_consumed_symbols = b.fully_qualified_consumed_symbols := by
  unfold ScalaSourceDependencyAnalysis.fully_qualified_consumed_symbols
    wildcardImportsByScope
  rw [h1, h2, h3]

/-- Witness for C7: two analyses equal on the resolver-relevant fields but
differing in the provided-symbol fields resolve to the same sequence. -/
theorem C7_witness :
    (exQux.imports_by_scope = exQuxProvided.imports_by_scope) ∧
    (exQux.consumed_symbols_by_scope = exQuxProvided.consumed_symbols_by_scope) ∧
    (exQux.scopes = exQuxProvided.scopes) ∧
    exQux.fully_qualified_consumed_symbols =
      exQuxProvided.fully_qualified_consumed_symbols :=
  ⟨rfl, rfl, rfl, C7_deterministic_resolution exQux exQuxProvided rfl rfl rfl⟩

/-- Claim C8: the resolver is total: for every analysis it evaluates to a
finite list whose length is given by a closed formula (known scopes per
symbol, plus the bare fallback, plus ancestor wildcards); in particular it
evaluates to concrete finite sequences on the degenerate analyses with empty
scopes, empty consumed symbols and no wildcard imports. -/
theorem C8_resolver_total :
    (∀ a : ScalaSourceDependencyAnalysis,
      a.fully_qualified_consumed_symbols.length =
        (a.consumed_symbols_by_scope.map (fun p =>
          (p.2.map (fun sym =>
            a.scopes.length +
              (if a.scopes.isEmpty || strContains sym '.' then 1 else 0) +
              (parentScopeWildcards (wildcardImportsByScope a) p.1).length)).sum)).sum) ∧
    exEmpty.fully_qualified_consumed_symbols = [] ∧
    exNoScopes.fully_qualified_consumed_symbols = ["Qux", "a.b.Qux"] := by
  refine ⟨?_, by decide, by decide⟩
  intro a
  simp only [ScalaSourceDependencyAnalysis.fully_qualified_consumed_symbols,
    List.length_flatMap, Function.comp_def, candidatesForSymbol,
    List.length_append, List.length_map, apply_ite List.length,
    List.length_singleton, List.length_nil]

/-- Claim C9: with zero source files or more than one source file the rule
fails with a precondition-violation error, returned before any parser
invocation is assembled. -/
theorem C9_fails_fast_on_wrong_file_count (files snapshot_files : List String)
    (h : files.length = 0 ∨ 1 < files.length) :
    ∃ msg, analyze_scala_source_dependencies files snapshot_files =
      Except.error msg := by
  rcases h with h | h
  · rcases files with _ | ⟨x, xs⟩
    · exact ⟨_, rfl⟩
    · simp at h
  · unfold analyze_scala_source_dependencies
    rw [if_pos h]
    exact ⟨_, rfl⟩

/-- Witness for C9 with an empty list of source files. -/
theorem C9_witness :
    (([] : List String).length = 0 ∨ 1 < ([] : List String).length) ∧
    ∃ msg, analyze_scala_source_dependencies [] [] = Except.error msg :=
  ⟨Or.inl rfl, C9_fails_fast_on_wrong_file_count [] [] (Or.inl rfl)⟩

/-- Claim C10: `from_json_dict` deduplicates rather than rejects: each of the
`providedSymbols`, `providedSymbolsEncoded`, `scopes` and per-scope
`consumedSymbolsByScope` lists is turned into a collection holding every
element of the input exactly once, in order of first occurrence, for
arbitrary list input. -/
theorem C10_deserialization_establishes_nodup (d : AnalysisJson) :
    IsOrderedDedupOf (ScalaSourceDependencyAnalysis.from_json_dict d).provided_symbols
      d.providedSymbols ∧
    IsOrderedDedupOf (ScalaSourceDependencyAnalysis.from_json_dict d).provided_symbols_encoded
      d.providedSymbolsEncoded ∧
    IsOrderedDedupOf (ScalaSourceDependencyAnalysis.from_json_dict d).scopes d.scopes ∧
    List.Forall₂ (fun pIn pOut => pOut.1 = pIn.1 ∧ IsOrderedDedupOf pOut.2 pIn.2)
      d.consumedSymbolsByScope
      (ScalaSourceDependencyAnalysis.from_json_dict d).consumed_symbols_by_scope := by
  refine ⟨isOrderedDedupOf_orderedDedup _, isOrderedDedupOf_orderedDedup _,
    isOrderedDedupOf_orderedDedup _, ?_⟩
  show List.Forall₂ _ d.consumedSymbolsByScope
    (d.consumedSymbolsByScope.map (fun p => (p.1, orderedDedup p.2)))
  rw [List.forall₂_map_right_iff, List.forall₂_same]
  intro p _
  exact ⟨rfl, isOrderedDedupOf_orderedDedup p.2⟩

end ScalaParserModel
